import Mathlib

/-!
Verification development for the Dual Scope lesson-content validator
(`english-resources-validate.py`).  The Python functions are shallowly
embedded as executable Lean definitions over `List Char`; the theorems at
the end settle the specified properties of the extractor, the
JS-to-JSON normalization, the leak checks, the categoryMap consistency
check and the run-level exit status.
-/

namespace ERV

/-- Characters matched by Python's regex class `\s` (ASCII range). -/
def pyWs (c : Char) : Bool :=
  c = ' ' || c = '\t' || c = '\n' || c = '\r' || c = Char.ofNat 11 || c = Char.ofNat 12

/-- Characters matched by Python's regex class `\w` (restricted to ASCII;
the embedded documents' ASCII fragments are all that the theorems touch). -/
def wordCh (c : Char) : Bool :=
  c.isAlphanum || c = '_'

/-- The single-quote character. -/
def squote : Char := Char.ofNat 39

/-- The backtick character. -/
def btick : Char := Char.ofNat 96

/-- Python `str.strip()`: drop whitespace from both ends. -/
def pyStrip (l : List Char) : List Char :=
  ((l.dropWhile pyWs).reverse.dropWhile pyWs).reverse

/-- Python `str.lower()` (ASCII letters). -/
def lowerL (l : List Char) : List Char :=
  l.map Char.toLower

/-- Strip a literal off the front of a character list. -/
def stripLit : List Char → List Char → Option (List Char)
  | [], s => some s
  | _ :: _, [] => none
  | a :: as, b :: bs => if a = b then stripLit as bs else none

/-- Whether `needle` occurs as a contiguous substring of `hay`. -/
def occursSub (needle : List Char) : List Char → Bool
  | [] => needle.isPrefixOf []
  | c :: t => needle.isPrefixOf (c :: t) || occursSub needle (c :: t).tail

/-- `Lesson-data extractor, declaration literal:` `const grammarData`. -/
def declLit : List Char := "const grammarData".toList

/-- Attempt to match the regex fragment `const grammarData\s*=\s*\{` at the
head of `s`; on success return the text after the opening brace. -/
def matchDeclAt (s : List Char) : Option (List Char) :=
  match stripLit declLit s with
  | none => none
  | some r =>
    match r.dropWhile pyWs with
    | '=' :: r2 =>
      match r2.dropWhile pyWs with
      | '{' :: r3 => some r3
      | _ => none
    | _ => none

/-- Scan for the first occurrence of the three characters newline, closing
brace, semicolon; return the characters before it (the non-greedy `.*?`). -/
def findCloseAux : List Char → Option (List Char)
  | '\n' :: '}' :: ';' :: _ => some []
  | c :: rest => (findCloseAux rest).map (fun b => c :: b)
  | [] => none

/-- `extract_grammar_data_text` (validator, lines 29-39): leftmost match of
the regex `const grammarData\s*=\s*(\{.*?\n\});` with `re.DOTALL`; the
returned group runs from the opening brace to the first subsequent
newline-brace, which must be followed by a semicolon.  `None` when the
pattern never matches. -/
def extract_grammar_data_text : List Char → Option (List Char)
  | [] => none
  | c :: rest =>
    match matchDeclAt (c :: rest) with
    | some afterBrace =>
      match findCloseAux afterBrace with
      | some body => some ('{' :: (body ++ ['\n', '}']))
      | none => extract_grammar_data_text rest
    | none => extract_grammar_data_text rest

/-! ### `js_to_json` (validator, lines 42-63): four regex substitutions. -/

/-- Pass 1, `re.sub(r'//[^\n]*', '', text)`: drop everything from each `//`
to the end of its line.  The Boolean state is "currently inside a deleted
line comment". -/
def stripLCAux : Bool → List Char → List Char
  | _, [] => []
  | true, c :: rest => if c = '\n' then c :: stripLCAux false rest else stripLCAux true rest
  | false, c :: rest =>
    match rest with
    | c2 :: r2 =>
      if c = '/' ∧ c2 = '/' then stripLCAux true r2
      else c :: stripLCAux false (c2 :: r2)
    | [] => [c]

def stripLineComments (l : List Char) : List Char :=
  stripLCAux false l

/-- Find the first `*/`, returning the text after it. -/
def findStarSlash : List Char → Option (List Char)
  | '*' :: '/' :: rest => some rest
  | _ :: rest => findStarSlash rest
  | [] => none

/-- Pass 2, `re.sub(r'/\*.*?\*/', '', text, flags=re.DOTALL)`: each leftmost
`/*` paired with the first following `*/` is deleted; an unterminated `/*`
stays (the regex cannot match it).  Fuel-driven so the kernel can evaluate
it; `stripBlockComments` supplies fuel equal to the input length. -/
def sBCFuel : Nat → List Char → List Char
  | 0, l => l
  | _ + 1, [] => []
  | fuel + 1, c :: rest =>
    if c = '/' ∧ rest.headD ' ' = '*' then
      match findStarSlash rest.tail with
      | some after => sBCFuel fuel after
      | none => c :: sBCFuel fuel rest
    else c :: sBCFuel fuel rest

def stripBlockComments (l : List Char) : List Char :=
  sBCFuel l.length l

/-- Lookbehind class of pass 3: `(?<=[{,\n])`. -/
def keyTrigger : Option Char → Bool
  | some '{' => true
  | some ',' => true
  | some '\n' => true
  | _ => false

/-- Attempt to match `\s*(\w+)\s*:` at the head of `l`; on success return
the captured word and the text after the colon. -/
def tryKeyMatch (l : List Char) : Option (List Char × List Char) :=
  let r1 := l.dropWhile pyWs
  let word := r1.takeWhile wordCh
  let r2 := r1.dropWhile wordCh
  match word, r2.dropWhile pyWs with
  | [], _ => none
  | _ :: _, ':' :: r3 => some (word, r3)
  | _ :: _, _ => none

/-- Pass 3, `re.sub(r'(?<=[{,\n])\s*(\w+)\s*:', r' "\1":', text)`: after a
brace, comma or newline, a bare word followed by a colon is rewritten to a
double-quoted key.  Scanning resumes after the consumed colon, whose
character is the lookbehind for the next position. -/
def quoteKeysFuel : Nat → Option Char → List Char → List Char
  | 0, _, l => l
  | _ + 1, _, [] => []
  | fuel + 1, prev, c :: rest =>
    if keyTrigger prev then
      match tryKeyMatch (c :: rest) with
      | some (word, r3) =>
        ' ' :: '"' :: (word ++ '"' :: ':' :: quoteKeysFuel fuel (some ':') r3)
      | none => c :: quoteKeysFuel fuel (some c) rest
    else c :: quoteKeysFuel fuel (some c) rest

def quoteBareKeys (l : List Char) : List Char :=
  quoteKeysFuel l.length none l

/-- Pass 4, `re.sub(r',\s*([}\]])', r'\1', text)`: a comma followed by
optional whitespace and a closing brace or bracket is replaced by just the
closer. -/
def rtcFuel : Nat → List Char → List Char
  | 0, l => l
  | _ + 1, [] => []
  | fuel + 1, c :: rest =>
    if c = ',' then
      match rest.dropWhile pyWs with
      | b :: rest2 =>
        if b = '}' ∨ b = ']' then b :: rtcFuel fuel rest2
        else c :: rtcFuel fuel rest
      | [] => c :: rtcFuel fuel rest
    else c :: rtcFuel fuel rest

def removeTrailingCommas (l : List Char) : List Char :=
  rtcFuel l.length l

/-- `js_to_json` (validator, lines 42-63): the four substitutions in the
order the source applies them.  Single-quoted strings are left untouched,
as in the source. -/
def js_to_json (l : List Char) : List Char :=
  removeTrailingCommas (quoteBareKeys (stripBlockComments (stripLineComments l)))

/-! ### Answer classification and answer-word derivation (lines 81-129). -/

/-- Python `str.split()` with no argument: split on whitespace runs,
dropping empty tokens.  `acc` holds the current token reversed. -/
def pySplitAux : List Char → List Char → List (List Char)
  | [], acc => if acc.isEmpty then [] else [acc.reverse]
  | c :: rest, acc =>
    if pyWs c then
      if acc.isEmpty then pySplitAux rest [] else acc.reverse :: pySplitAux rest []
    else pySplitAux rest (c :: acc)

def pySplit (l : List Char) : List (List Char) :=
  pySplitAux l []

/-- Python `str.split(',')`: split at every comma, keeping empty pieces. -/
def splitCommaAux : List Char → List Char → List (List Char)
  | [], acc => [acc.reverse]
  | ',' :: rest, acc => acc.reverse :: splitCommaAux rest []
  | c :: rest, acc => splitCommaAux rest (c :: acc)

def splitComma (l : List Char) : List (List Char) :=
  splitCommaAux l []

/-- `re.sub(r'^[a-d]\.\s*', '', s)`: drop a leading choice-letter label. -/
def stripChoiceLabel : List Char → List Char
  | c :: '.' :: rest =>
    if 'a' ≤ c && c ≤ 'd' then rest.dropWhile pyWs else c :: '.' :: rest
  | l => l

/-- `answer.split('→')[-1]`: the text after the last arrow. -/
def afterLastArrow (l : List Char) : List Char :=
  (l.reverse.takeWhile (fun c => c ≠ '→')).reverse

/-- `is_sentence_answer` (lines 81-86): at least four whitespace-separated
words after stripping the choice label from the stripped answer. -/
def is_sentence_answer (answer_str : List Char) : Bool :=
  4 ≤ (pySplit (stripChoiceLabel (pyStrip answer_str))).length

/-- `COMMON_WORDS` (lines 90-98). -/
def COMMON_WORDS : List (List Char) :=
  ["a", "an", "the", "is", "are", "was", "were", "be", "been", "being",
   "have", "has", "had", "do", "does", "did", "will", "would", "can",
   "could", "should", "may", "might", "shall", "must", "to", "of", "in",
   "on", "at", "by", "for", "with", "from", "as", "it", "its", "that",
   "this", "not", "no", "so", "if", "or", "and", "but", "i", "he", "she",
   "we", "they", "you", "me", "him", "her", "us", "them", "my", "his",
   "our", "your", "their"].map String.toList

/-- `extract_answer_words` (lines 101-129). -/
def extract_answer_words (answer_str : List Char) : List (List Char) :=
  let answer := pyStrip answer_str
  let answer := stripChoiceLabel answer
  let answer := if '→' ∈ answer then pyStrip (afterLastArrow answer) else answer
  if is_sentence_answer answer then [pyStrip (lowerL answer)]
  else
    let words := (splitComma answer).filterMap fun w =>
      let t := pyStrip w
      if t.isEmpty then none else some (lowerL t)
    let full := pyStrip (lowerL answer)
    if full ≠ [] ∧ full ∉ words then words ++ [full] else words

/-! ### Word-boundary regex search (`re.search(r'\b' + re.escape(w) + r'\b', s)`). -/

/-- Word-character test at a position, positions outside the text counting
as non-word. -/
def wAt (hay : List Char) (i : Nat) : Bool :=
  wordCh (hay.getD i ' ')

/-- `\b` immediately before an occurrence of `needle` at position `i`. -/
def boundaryStart (needle hay : List Char) (i : Nat) : Bool :=
  (decide (0 < i) && wAt hay (i - 1)) != wordCh (needle.headD ' ')

/-- `\b` immediately after an occurrence of `needle` at position `i`. -/
def boundaryEnd (needle hay : List Char) (i : Nat) : Bool :=
  wordCh (needle.getLastD ' ') != wAt hay (i + needle.length)

/-- `re.search` of the escaped word wrapped in `\b ... \b`: some position
carries a literal occurrence with word boundaries on both sides.  An empty
needle degenerates to `\b\b`, which holds at any single boundary. -/
def wbSearch (needle hay : List Char) : Bool :=
  if needle.isEmpty then
    (List.range (hay.length + 1)).any fun i =>
      ((decide (0 < i) && wAt hay (i - 1)) != wAt hay i)
  else
    (List.range (hay.length + 1)).any fun i =>
      needle.isPrefixOf (hay.drop i) && boundaryStart needle hay i &&
        boundaryEnd needle hay i

/-! ### The lesson-data model and findings. -/

/-- One validator finding (`{"type", "severity", "question", "section",
"detail"}`); the `section` key is rendered as `sect` because `section` is a
reserved word here. -/
structure Finding where
  type : List Char
  severity : List Char
  question : List Char
  sect : List Char
  detail : List Char
deriving DecidableEq, Repr

/-- One question of a section.  Fields the document omits are modelled by
the empty string / empty list, matching the source's `question.get(...)`
defaults.  A vocab entry is the JSON array `[word, definition, ...]`. -/
structure Question where
  num : List Char
  text : List Char
  answer : List Char
  translation : List Char
  vocab : List (List (List Char))
  hint : List (List Char)
deriving DecidableEq, Repr

structure LSection where
  title : List Char
  questions : List Question
deriving DecidableEq, Repr

structure GrammarData where
  sections : List LSection
deriving DecidableEq, Repr

/-- Decimal digits of a natural number (fuel-driven). -/
def digitChar (n : Nat) : Char := Char.ofNat (48 + n)

def natStrAux : Nat → Nat → List Char
  | 0, n => [digitChar (n % 10)]
  | fuel + 1, n => if n < 10 then [digitChar n] else natStrAux fuel (n / 10) ++ [digitChar (n % 10)]

def natStr (n : Nat) : List Char := natStrAux n n

/-! ### `check_vocab_leaks` (lines 132-211). -/

/-- The grammar/function-word set of the sentence-answer branch (lines
173-175). -/
def FUNCTION_WORDS : List (List Char) :=
  ["so", "not", "no", "in", "by", "as", "of",
   "such", "both", "either", "neither", "nor",
   "whether", "until", "unless", "once", "that"].map String.toList

def vocabDetailTeaches (w0 : List Char) : List Char :=
  "Vocab ".toList ++ [squote] ++ w0 ++ [squote] ++
    " teaches grammar pattern from answer".toList

def vocabDetailContains (w0 aw : List Char) : List Char :=
  "Vocab ".toList ++ [squote] ++ w0 ++ [squote] ++ " contains answer ".toList ++
    [squote] ++ aw ++ [squote]

def vocabDetailMatches (w0 aw : List Char) : List Char :=
  "Vocab ".toList ++ [squote] ++ w0 ++ [squote] ++ " matches answer ".toList ++
    [squote] ++ aw ++ [squote]

/-- The per-entry body of `check_vocab_leaks`' main loop. -/
def vocabEntryIssues (sentence : Bool) (answer_words : List (List Char))
    (num sect : List Char) (entry : List (List Char)) : List Finding :=
  if entry.length < 2 then []
  else
    let w0 := entry.headD []
    let vocab_word := lowerL w0
    let vocab_word_plain := pyStrip (vocab_word.filter (fun c => wordCh c || pyWs c))
    if vocab_word_plain ∈ COMMON_WORDS then []
    else
      answer_words.flatMap fun aw =>
        if aw.isEmpty then []
        else if sentence then
          if (pySplit vocab_word_plain).length < 2 then []
          else
            let phrase_words := pySplit vocab_word_plain
            let has_function_word := phrase_words.any (fun w => decide (w ∈ FUNCTION_WORDS))
            if has_function_word && occursSub vocab_word_plain aw then
              [⟨"vocab_leak".toList, "HIGH".toList, num, sect, vocabDetailTeaches w0⟩]
            else []
        else
          if aw ∈ COMMON_WORDS then []
          else if wbSearch aw vocab_word then
            [⟨"vocab_leak".toList, "HIGH".toList, num, sect, vocabDetailContains w0 aw⟩]
          else if wbSearch vocab_word_plain aw then
            [⟨"vocab_leak".toList, "HIGH".toList, num, sect, vocabDetailMatches w0 aw⟩]
          else []

/-- `check_vocab_leaks` (lines 132-211). -/
def check_vocab_leaks (q : Question) (section_title : List Char) : List Finding :=
  if q.answer.isEmpty || q.vocab.isEmpty then []
  else
    let sentence := is_sentence_answer q.answer
    let answer_words := extract_answer_words q.answer
    q.vocab.flatMap (vocabEntryIssues sentence answer_words q.num section_title)

/-! ### `check_hint_leaks` (lines 214-267). -/

/-- The `answer_parts` list of `check_hint_leaks` (lines 234-238): the
comma-separated pieces of the cleaned answer plus, when absent, the whole
lower-cased phrase.  The arrow marker of correction answers receives no
treatment here. -/
def hintAnswerParts (answer : List Char) : List (List Char) :=
  let clean := stripChoiceLabel (pyStrip answer)
  let parts := (splitComma clean).filterMap fun w =>
    let t := pyStrip w
    if t.isEmpty then none else some (lowerL t)
  let full := pyStrip (lowerL clean)
  if full ∈ parts then parts else parts ++ [full]

/-- The matching rule of `check_hint_leaks` (lines 245-258): substring
containment for multi-word parts, word-boundary search for single words. -/
def hintMatch (aw hint : List Char) : Bool :=
  if ' ' ∈ aw then occursSub aw (lowerL hint)
  else wbSearch aw (lowerL hint)

/-- The finding built for a hint leak, with the verb of the detail text
depending on the branch taken. -/
def mkHintFinding (num sect : List Char) (i : Nat) (hint aw : List Char) : Finding :=
  ⟨"hint_leak".toList, "HIGH".toList, num, sect,
   "Hint ".toList ++ natStr (i + 1) ++
     (if ' ' ∈ aw then " states answer ".toList else " contains answer ".toList) ++
     [squote] ++ aw ++ [squote, ':', ' ', '"'] ++ hint.take 60 ++ "...".toList ++ ['"']⟩

/-- `enumerate` over a list with a start index. -/
def enumFrom {α : Type} : Nat → List α → List (Nat × α)
  | _, [] => []
  | n, a :: t => (n, a) :: enumFrom (n + 1) t

/-- `check_hint_leaks` (lines 214-267). -/
def check_hint_leaks (q : Question) (section_title : List Char) : List Finding :=
  if q.answer.isEmpty || q.hint.isEmpty then []
  else if is_sentence_answer q.answer then []
  else
    (enumFrom 0 q.hint).flatMap fun p =>
      (hintAnswerParts q.answer).flatMap fun aw =>
        if aw = [] ∨ aw ∈ COMMON_WORDS then []
        else if hintMatch aw p.2 then [mkHintFinding q.num section_title p.1 p.2 aw]
        else []

/-! ### `check_required_fields` (lines 270-310) and `check_hint_count`
(lines 313-328). -/

def mkMissingField (num sect field : List Char) : Finding :=
  ⟨"missing_field".toList, "MEDIUM".toList, num, sect,
   "Missing required field: ".toList ++ field⟩

/-- Demotion of a missing-translation finding to LOW (lines 301-308). -/
def demoteTranslation (f : Finding) : Finding :=
  if f.type = "missing_field".toList ∧ occursSub "translation".toList f.detail = true then
    { f with severity := "LOW".toList }
  else f

def check_required_fields (q : Question) (section_title : List Char) : List Finding :=
  let reqd := [(q.text, "text".toList), (q.answer, "answer".toList),
               (q.translation, "translation".toList)]
  let base := reqd.filterMap fun p =>
    if (pyStrip p.1).isEmpty then some (mkMissingField q.num section_title p.2) else none
  let base := base ++
    (if q.vocab.isEmpty && q.hint.isEmpty then
      [⟨"no_pedagogy".toList, "LOW".toList, q.num, section_title,
        "No vocab AND no hints (student gets no help)".toList⟩]
     else [])
  let section_lower := lowerL section_title
  let translation_optional :=
    (["並べかえ", "英作文", "空所補充"].map String.toList).any
      fun kw => occursSub kw section_lower
  if translation_optional then base.map demoteTranslation else base

def check_hint_count (q : Question) (section_title : List Char) : List Finding :=
  if !q.hint.isEmpty && q.hint.length ≠ 3 then
    [⟨"hint_count".toList, "LOW".toList, q.num, section_title,
      "Expected 3 hints, found ".toList ++ natStr q.hint.length⟩]
  else []

/-! ### The categoryMap consistency check (`validate_file`, lines 374-397). -/

def catLit : List Char := "categoryMap:".toList

/-- Attempt to match the regex `categoryMap:\s*\{([^}]+)\}` at the head of
`s`; on success return the captured group (the non-empty text between the
braces). -/
def matchCatAt (s : List Char) : Option (List Char) :=
  match stripLit catLit s with
  | none => none
  | some r =>
    match r.dropWhile pyWs with
    | '{' :: r2 =>
      let grp := r2.takeWhile (fun c => c ≠ '}')
      if grp.isEmpty then none
      else if (r2.drop grp.length).isEmpty then none
      else some grp
    | _ => none

/-- `re.search(r'categoryMap:\s*\{([^}]+)\}', content)`: the leftmost
successful match. -/
def catSearch : List Char → Option (List Char)
  | [] => none
  | c :: rest =>
    match matchCatAt (c :: rest) with
    | some g => some g
    | none => catSearch rest

/-- The numeric value of a digit run. -/
def natOfDigits (l : List Char) : Nat :=
  l.foldl (fun acc c => 10 * acc + (c.toNat - 48)) 0

/-- All matches of `re.finditer(r'\d+', ...)` converted with `int(...)`, in
order of occurrence. -/
def digitRunsAux : List Char → List Char → List Nat
  | [], acc => if acc.isEmpty then [] else [natOfDigits acc.reverse]
  | c :: rest, acc =>
    if c.isDigit then digitRunsAux rest (c :: acc)
    else if acc.isEmpty then digitRunsAux rest []
    else natOfDigits acc.reverse :: digitRunsAux rest []

def digitRuns (l : List Char) : List Nat := digitRunsAux l []

/-- Python set equality `set(referenced) == set(range(n))` in membership
form. -/
def refsEqualRange (n : Nat) (refs : List Nat) : Bool :=
  (List.range n).all (fun k => decide (k ∈ refs)) && refs.all (fun k => decide (k < n))

/-- `sorted(expected - referenced)`. -/
def missingRefs (n : Nat) (refs : List Nat) : List Nat :=
  (List.range n).filter (fun k => decide (k ∉ refs))

/-- Ascending insertion dropping duplicates. -/
def insNat (x : Nat) : List Nat → List Nat
  | [] => [x]
  | y :: t => if x < y then x :: y :: t else if x = y then y :: t else y :: insNat x t

def sortedDedup (l : List Nat) : List Nat := l.foldr insNat []

/-- `sorted(referenced - expected)`. -/
def extraRefs (n : Nat) (refs : List Nat) : List Nat :=
  sortedDedup (refs.filter (fun k => decide (n ≤ k)))

/-- Python `str(list)` rendering, `[0, 2]`. -/
def pyListStr (l : List Nat) : List Char :=
  '[' :: (List.intercalate ", ".toList (l.map natStr)) ++ [']']

/-- The mismatch detail of lines 386-390, stripped as on line 396. -/
def catDetail (n : Nat) (refs : List Nat) : List Char :=
  pyStrip
    ((if (missingRefs n refs).isEmpty then []
      else "Sections not in categoryMap: ".toList ++ pyListStr (missingRefs n refs) ++ ". ".toList) ++
     (if (extraRefs n refs).isEmpty then []
      else "categoryMap references non-existent sections: ".toList ++ pyListStr (extraRefs n refs) ++ ".".toList))

def catMismatchFinding (n : Nat) (refs : List Nat) : Finding :=
  ⟨"categoryMap_mismatch".toList, "HIGH".toList, "-".toList, "-".toList, catDetail n refs⟩

/-- The categoryMap consistency block of `validate_file` (lines 374-397):
silently skipped when the regex finds no categoryMap literal. -/
def categoryMapIssues (content : List Char) (numSections : Nat) : List Finding :=
  match catSearch content with
  | none => []
  | some catText =>
    let referenced := digitRuns catText
    if refsEqualRange numSections referenced then []
    else [catMismatchFinding numSections referenced]

/-! ### `validate_file` (lines 331-419) and the run loop of `main`
(lines 479-506).  Reading the file and `json.loads` are external
collaborators; the strict JSON parse is abstracted as a function argument
returning either the parsed tree or the decoder's message. -/

def MAX_HTML_SIZE : Nat := 200 * 1024

def questionIssues (q : Question) (title : List Char) : List Finding :=
  check_vocab_leaks q title ++ check_hint_leaks q title ++
    check_required_fields q title ++ check_hint_count q title

def sectionIssues (s : LSection) : List Finding :=
  s.questions.flatMap (fun q => questionIssues q s.title)

/-- The findings list computed by `validate_file` for one document, given
the raw content, its byte size and the JSON decoder. -/
def sizeFinding (size : Nat) : Finding :=
  ⟨"file_size".toList, "MEDIUM".toList, "-".toList, "-".toList,
   "File is ".toList ++ natStr (size / 1024) ++ "KB (limit: ".toList ++
     natStr (MAX_HTML_SIZE / 1024) ++ "KB)".toList⟩

def sizeIssuesOf (size : Nat) : List Finding :=
  if MAX_HTML_SIZE < size then [sizeFinding size] else []

def noDataFinding : Finding :=
  ⟨"parse_error".toList, "HIGH".toList, "-".toList, "-".toList,
   "Could not find grammarData block".toList⟩

def jsonErrFinding (e : List Char) : Finding :=
  ⟨"parse_error".toList, "HIGH".toList, "-".toList, "-".toList,
   "JSON parse error: ".toList ++ e⟩

def noSectionsFinding : Finding :=
  ⟨"no_sections".toList, "HIGH".toList, "-".toList, "-".toList,
   "grammarData has no sections".toList⟩

def validate_file_core (jparse : List Char → Except (List Char) GrammarData)
    (content : List Char) (size : Nat) : List Finding :=
  match extract_grammar_data_text content with
  | none => sizeIssuesOf size ++ [noDataFinding]
  | some raw =>
    match jparse (js_to_json raw) with
    | .error e => sizeIssuesOf size ++ [jsonErrFinding e]
    | .ok data =>
      if data.sections.isEmpty then sizeIssuesOf size ++ [noSectionsFinding]
      else
        sizeIssuesOf size ++ categoryMapIssues content data.sections.length ++
          data.sections.flatMap sectionIssues

/-- The `all_passed` accumulation of `main` (lines 479-493): a file flips
the flag exactly when its findings list is non-empty. -/
def runAllPassed (results : List (List Finding)) : Bool :=
  results.foldl (fun acc issues => if issues.isEmpty then acc else false) true

/-- `sys.exit(0 if all_passed else 1)` (line 506). -/
def exitCode (results : List (List Finding)) : Nat :=
  if runAllPassed results then 0 else 1

/-! ### Occurrence checkers for the four normalization patterns.  Each one
mirrors the corresponding scanner and reports whether the scanner could
fire anywhere in the text. -/

/-- Whether the key-quoting pattern `(?<=[{,\n])\s*(\w+)\s*:` matches at
some position, `prev` being the character before the current position. -/
def hasKeyPatAux : Option Char → List Char → Bool
  | _, [] => false
  | prev, c :: rest =>
    (keyTrigger prev && (tryKeyMatch (c :: rest)).isSome) || hasKeyPatAux (some c) rest

def hasKeyPat (l : List Char) : Bool := hasKeyPatAux none l

/-- Whether the trailing-comma pattern `,\s*[}\]]` matches at some
position. -/
def hasTrailCommaAux : List Char → Bool
  | [] => false
  | c :: rest =>
    (decide (c = ',') &&
      (match rest.dropWhile pyWs with
       | b :: _ => decide (b = '}' ∨ b = ']')
       | [] => false)) || hasTrailCommaAux rest

/-! ### Specification-side definitions.  The following definitions are not
translations of the source: they formalize wording of the specification
(balanced-delimiter scanning; keys being quoted) and are used only to
state claims against the behaviour of the translated code. -/

/-- Specification wording, §4.1: balanced-delimiter scanning that skips
single-quoted, double-quoted and backtick-delimited string literals,
honouring backslash escapes.  Returns the final brace depth, or `none` on
a premature closing brace or an unterminated string. -/
def specScanDepth : Nat → Option Char → List Char → Option Nat
  | d, none, [] => some d
  | _, some _, [] => none
  | d, none, c :: r =>
    if c = '{' then specScanDepth (d + 1) none r
    else if c = '}' then
      match d with
      | 0 => none
      | d' + 1 => specScanDepth d' none r
    else if c = '"' ∨ c = squote ∨ c = btick then specScanDepth d (some c) r
    else specScanDepth d none r
  | d, some q, c :: r =>
    if c = '\\' then
      match r with
      | _ :: r2 => specScanDepth d (some q) r2
      | [] => none
    else if c = q then specScanDepth d none r
    else specScanDepth d (some q) r

/-- A text is a balanced object literal in the sense of the
specification's extraction contract when the string-aware scan ends at
depth zero. -/
def specBalancedLiteral (l : List Char) : Bool :=
  specScanDepth 0 none l == some 0

/-- Formalization of the claim wording "no bare (unquoted) identifier
keys": every colon occurring outside string literals directly follows a
double-quoted string (whitespace allowed in between). -/
def noBareKeysAux : Option Char → Char → List Char → Bool
  | none, _, [] => true
  | some _, _, [] => true
  | none, lastC, c :: r =>
    if c = ':' then decide (lastC = '"') && noBareKeysAux none ':' r
    else if pyWs c then noBareKeysAux none lastC r
    else if c = '"' ∨ c = squote ∨ c = btick then noBareKeysAux (some c) c r
    else noBareKeysAux none c r
  | some q, lastC, c :: r =>
    if c = '\\' then
      match r with
      | _ :: r2 => noBareKeysAux (some q) lastC r2
      | [] => true
    else if c = q then noBareKeysAux none c r
    else noBareKeysAux (some q) lastC r

def noBareKeysSpec (l : List Char) : Bool := noBareKeysAux none ' ' l

/-! ## Theorems -/

/-- C5: for every question whose answer, after stripping a leading
choice-letter label, tokenizes to four or more whitespace-separated words
(a sentence answer), `check_hint_leaks` returns the empty list of
findings, regardless of the hint contents. -/
theorem claim_C5 (q : Question) (section_title : List Char)
    (h : 4 ≤ (pySplit (stripChoiceLabel (pyStrip q.answer))).length) :
    check_hint_leaks q section_title = [] := by
  have hs : is_sentence_answer q.answer = true := by
    unfold is_sentence_answer
    exact decide_eq_true h
  simp [check_hint_leaks, hs]

/-- Witness for C5 at a concrete sentence-answer question with a hint that
repeats the whole answer. -/
theorem claim_C5_witness :
    check_hint_leaks
      ⟨"1".toList, "t".toList, "We should always tell the truth".toList,
       "tr".toList, [], ["We should always tell the truth".toList]⟩
      "Sec".toList = [] :=
  claim_C5 _ _ (by decide)

/-- C9: extraction plus validation is deterministic — the per-file
validation applied to the same content and size (through the same JSON
decoder) yields identical findings lists. -/
theorem claim_C9 (jparse : List Char → Except (List Char) GrammarData)
    (c₁ c₂ : List Char) (s₁ s₂ : Nat) (hc : c₁ = c₂) (hs : s₁ = s₂) :
    validate_file_core jparse c₁ s₁ = validate_file_core jparse c₂ s₂ := by
  subst hc
  subst hs
  rfl

/-- Witness for C9 at a concrete document and decoder. -/
theorem claim_C9_witness :
    validate_file_core (fun _ => Except.ok ⟨[]⟩) "no data".toList 7 =
      validate_file_core (fun _ => Except.ok ⟨[]⟩) "no data".toList 7 :=
  claim_C9 _ _ _ _ _ rfl rfl

/-- C2 (failing input): `js_to_json` strips the `//` occurring inside the
string value of `\x7b"a": "b//c"\x7d`, truncating the literal, although
both the specification and the source's own comment on line 46 say
comments are removed only outside string literals. -/
theorem claim_C2 :
    js_to_json ('{' :: "\"a\": \"b//c\"".toList ++ ['}']) =
      '{' :: "\"a\": \"b".toList := by decide

/-- All stoplisted common words are lower-case alphabetic, so lowering and
punctuation-stripping leave them unchanged. -/
theorem common_words_canonical :
    ∀ w ∈ COMMON_WORDS,
      lowerL w = w ∧ pyStrip (w.filter (fun c => wordCh c || pyWs c)) = w := by
  decide

/-- C6: a vocabulary entry whose head word is exactly a stoplisted common
word is skipped by the vocabulary-leak check before any comparison, so it
produces no finding for any answer, and a question carrying only that
entry yields no `vocab_leak` finding at all. -/
theorem claim_C6 (sentence : Bool) (answer_words : List (List Char))
    (num sect : List Char) (entry : List (List Char))
    (h : entry.headD [] ∈ COMMON_WORDS) :
    vocabEntryIssues sentence answer_words num sect entry = [] ∧
    ∀ (num₂ text answer translation : List Char) (hint : List (List Char))
      (sect₂ : List Char),
      check_vocab_leaks ⟨num₂, text, answer, translation, [entry], hint⟩ sect₂ = [] := by
  obtain ⟨hl, hp⟩ := common_words_canonical _ h
  have key : pyStrip (List.filter (fun c => wordCh c || pyWs c) (lowerL (entry.headD []))) =
      entry.headD [] := by
    rw [hl]
    exact hp
  have hentry : ∀ sentence₂ answer_words₂ num₂ sect₂,
      vocabEntryIssues sentence₂ answer_words₂ num₂ sect₂ entry = [] := by
    intro sentence₂ answer_words₂ num₂ sect₂
    unfold vocabEntryIssues
    by_cases hlen : entry.length < 2
    · simp [hlen]
    · have key₂ := key
      have h₂ := h
      generalize entry.headD [] = w0 at key₂ h₂ ⊢
      simp [hlen, key₂, h₂]
  refine ⟨hentry _ _ _ _, ?_⟩
  intro num₂ text answer translation hint sect₂
  unfold check_vocab_leaks
  by_cases ha : answer.isEmpty
  · simp [ha]
  · simp [ha, hentry]

/-- Witness for C6 with the stoplisted head word `the`. -/
theorem claim_C6_witness :
    vocabEntryIssues false ["the".toList] "1".toList "Sec".toList
      ["the".toList, "kanshi".toList] = [] ∧
    ∀ (num₂ text answer translation : List Char) (hint : List (List Char))
      (sect₂ : List Char),
      check_vocab_leaks
        ⟨num₂, text, answer, translation, [["the".toList, "kanshi".toList]], hint⟩
        sect₂ = [] :=
  claim_C6 false ["the".toList] "1".toList "Sec".toList
    ["the".toList, "kanshi".toList] (by decide)

/-- The `all_passed` fold is the conjunction of per-file emptiness. -/
theorem foldl_allPassed (rs : List (List Finding)) (b : Bool) :
    rs.foldl (fun acc issues => if issues.isEmpty then acc else false) b =
      (b && rs.all (fun l => l.isEmpty)) := by
  induction rs generalizing b with
  | nil => simp
  | cons x rs ih =>
    simp only [List.foldl_cons, List.all_cons]
    rw [ih]
    cases hx : x.isEmpty <;> simp [hx]

/-- C8: the process exit status of a run is success (0) exactly when every
file's findings list is empty; a single finding in any one file — of any
severity — flips the run to failure (1). -/
theorem claim_C8 (results : List (List Finding)) :
    (exitCode results = 0 ↔ ∀ l ∈ results, l = []) ∧
    ∀ (pre post : List (List Finding)) (f : Finding),
      exitCode (pre ++ [f] :: post) = 1 := by
  constructor
  · unfold exitCode runAllPassed
    rw [foldl_allPassed]
    by_cases hall : results.all (fun l => l.isEmpty) = true
    · simp only [hall, Bool.true_and, if_true]
      simpa [List.all_eq_true, List.isEmpty_iff] using hall
    · simp only [Bool.true_and, hall, if_false]
      constructor
      · intro h01
        cases h01
      · intro hforall
        exact absurd (by simpa [List.all_eq_true, List.isEmpty_iff] using hforall) hall
  · intro pre post f
    unfold exitCode runAllPassed
    rw [foldl_allPassed]
    simp

/-- Witness for C8 on a run of two clean files. -/
theorem claim_C8_witness : exitCode [[], []] = 0 :=
  (claim_C8 [[], []]).1.mpr (by decide)

/-- C1 (counterexample data): a document whose grammarData literal holds a
backtick string containing a newline, a closing brace and a semicolon. -/
def cexFull : List Char :=
  ['{', '\n', ' ', 's', ':', ' ', btick, 'x', '\n', '}', ';', btick, '\n', '}']

def cexDoc : List Char := "const grammarData = ".toList ++ cexFull ++ [';']

def cexTrunc : List Char :=
  ['{', '\n', ' ', 's', ':', ' ', btick, 'x', '\n', '}']

/-- C1 is false as stated: on `cexDoc` the extractor stops at the first
newline-brace-semicolon even though it lies inside a backtick string, so
the returned span is a strict prefix of (and not equal to) the balanced
object literal `cexFull`; string-aware balanced scanning accepts `cexFull`
and rejects the returned span. -/
theorem claim_C1_cex :
    extract_grammar_data_text cexDoc = some cexTrunc ∧
    cexTrunc ≠ cexFull ∧
    cexDoc = "const grammarData = ".toList ++ cexFull ++ [';'] ∧
    specBalancedLiteral cexFull = true ∧
    specBalancedLiteral cexTrunc = false := by
  refine ⟨by decide, by decide, rfl, by decide, by decide⟩

/-- A successful `stripLit` certifies the literal is a prefix. -/
theorem stripLit_isPrefixOf :
    ∀ (a b r : List Char), stripLit a b = some r → a.isPrefixOf b = true := by
  intro a
  induction a with
  | nil =>
    intro b r _
    simp [List.isPrefixOf]
  | cons x xs ih =>
    intro b r h
    cases b with
    | nil => simp [stripLit] at h
    | cons y ys =>
      unfold stripLit at h
      by_cases hxy : x = y
      · subst hxy
        simp only [if_pos rfl] at h
        simpa [List.isPrefixOf] using ih ys r h
      · simp [hxy] at h

/-- C1 (amended): the extractor locates the literal by a non-greedy match
running from the declaration prefix to the first subsequent
newline-brace-semicolon, without tracking string literals — so a `};` on a
fresh line inside a backtick string truncates the span (see the
counterexample).  What survives of the original claim is proved here: when
the declaration prefix does not occur in the buffer, extraction fails with
`none` (NotFound) rather than returning a span, and any returned span
starts at the opening brace and ends at the first matched newline-brace
pair. -/
theorem claim_C1 (s : List Char) :
    (occursSub declLit s = false → extract_grammar_data_text s = none) ∧
    (∀ t, extract_grammar_data_text s = some t →
      ∃ body, t = '{' :: (body ++ ['\n', '}'])) := by
  induction s with
  | nil =>
    refine ⟨fun _ => rfl, ?_⟩
    intro t ht
    simp [extract_grammar_data_text] at ht
  | cons c rest ih =>
    constructor
    · intro h
      have hsplit : declLit.isPrefixOf (c :: rest) = false ∧ occursSub declLit rest = false := by
        unfold occursSub at h
        simpa [Bool.or_eq_false_iff] using h
      have hmd : matchDeclAt (c :: rest) = none := by
        unfold matchDeclAt
        cases hsl : stripLit declLit (c :: rest) with
        | none => rfl
        | some r =>
          have hpre := stripLit_isPrefixOf _ _ _ hsl
          rw [hsplit.1] at hpre
          cases hpre
      unfold extract_grammar_data_text
      rw [hmd]
      exact ih.1 hsplit.2
    · intro t ht
      unfold extract_grammar_data_text at ht
      cases hmd : matchDeclAt (c :: rest) with
      | some ab =>
        rw [hmd] at ht
        dsimp only at ht
        cases hfc : findCloseAux ab with
        | some body =>
          rw [hfc] at ht
          exact ⟨body, (Option.some.inj ht).symm⟩
        | none =>
          rw [hfc] at ht
          exact ih.2 t ht
      | none =>
        rw [hmd] at ht
        exact ih.2 t ht

/-- Witness for C1 on a buffer without the declaration prefix. -/
theorem claim_C1_witness :
    extract_grammar_data_text "a page with no declaration".toList = none :=
  (claim_C1 _).1 (by decide)

/-- C4 (counterexample data): a correction-style short answer and a hint
that names the right-hand side of the correction. -/
def qC4 : Question :=
  ⟨"1".toList, "t".toList, "goed → went".toList, "tr".toList, [],
   ["Use went here.".toList]⟩

/-- C4 is false as stated: for the correction answer `goed → went` the
derived answer words of step 2 are exactly `went`, a single
non-stoplisted word that word-boundary-matches the hint `Use went here.`,
so the claim mandates a HIGH finding — but `check_hint_leaks` derives its
own comparison set without the arrow handling (the whole phrase
`goed → went`) and returns no findings. -/
theorem claim_C4_cex :
    check_hint_leaks qC4 "Sec".toList = [] ∧
    extract_answer_words qC4.answer = ["went".toList] ∧
    is_sentence_answer qC4.answer = false ∧
    "went".toList ∉ COMMON_WORDS ∧
    wbSearch "went".toList (lowerL "Use went here.".toList) = true := by
  refine ⟨by decide, by decide, by decide, by decide, by decide⟩

/-- Every in-range position appears in `enumFrom` with its shifted index
and element. -/
theorem enumFrom_mem {α : Type} (d : α) :
    ∀ (l : List α) (n i : Nat), i < l.length → (n + i, l.getD i d) ∈ enumFrom n l := by
  intro l
  induction l with
  | nil =>
    intro n i h
    simp at h
  | cons a t ih =>
    intro n i h
    cases i with
    | zero => simp [enumFrom]
    | succ j =>
      have hj : j < t.length := by simpa using h
      have harith : n + (j + 1) = (n + 1) + j := by omega
      simp only [enumFrom, List.getD_cons_succ, harith, List.mem_cons]
      exact Or.inr (ih (n + 1) j hj)

/-- C4 (amended): for every short-classified answer, `check_hint_leaks`
compares each hint against the comma-separated parts of the whole
prefix-stripped answer plus the whole lower-cased phrase — the arrow
marker of correction answers receives no special treatment here, so the
left-hand side remains part of the compared phrase — using substring
containment for multi-word parts and whole-word-boundary matching for
single words; every match yields a HIGH `hint_leak` finding citing the
hint's 1-based index and the first 60 characters of the hint. -/
theorem claim_C4 (q : Question) (section_title : List Char) (i : Nat) (aw : List Char)
    (hans : q.answer ≠ []) (hsent : is_sentence_answer q.answer = false)
    (hi : i < q.hint.length)
    (haw : aw ∈ hintAnswerParts q.answer) (hne : aw ≠ []) (hcw : aw ∉ COMMON_WORDS)
    (hm : hintMatch aw (q.hint.getD i []) = true) :
    mkHintFinding q.num section_title i (q.hint.getD i []) aw ∈
      check_hint_leaks q section_title := by
  have ha : q.answer.isEmpty = false := by
    cases hq : q.answer with
    | nil => exact absurd hq hans
    | cons x xs => simp
  have hh : q.hint.isEmpty = false := by
    cases hq : q.hint with
    | nil => rw [hq] at hi; simp at hi
    | cons x xs => simp
  unfold check_hint_leaks
  simp only [ha, hh, Bool.or_self, if_false, hsent, Bool.false_eq_true]
  rw [List.mem_flatMap]
  refine ⟨(i, q.hint.getD i []), by simpa using enumFrom_mem [] q.hint 0 i hi, ?_⟩
  rw [List.mem_flatMap]
  refine ⟨aw, haw, ?_⟩
  have hm₂ : hintMatch aw (q.hint[i]?.getD []) = true := by
    simpa [List.getD] using hm
  simp [hne, hcw, hm₂]

/-- Witness for C4: a hint containing the short answer word `honest`
produces the corresponding HIGH finding. -/
theorem claim_C4_witness :
    mkHintFinding "1".toList "Sec".toList 0 "Being honest matters".toList
      "honest".toList ∈
      check_hint_leaks
        ⟨"1".toList, "t".toList, "honest".toList, "tr".toList, [],
         ["Being honest matters".toList]⟩
        "Sec".toList :=
  claim_C4 _ _ 0 _ (by decide) (by decide) (by decide) (by decide) (by decide)
    (by decide) (by decide)

/-- Pass 1 is the identity on texts with no `//`. -/
theorem stripLCAux_id :
    ∀ s : List Char, occursSub ['/', '/'] s = false → stripLCAux false s = s := by
  intro s
  induction s with
  | nil => intro _; rfl
  | cons c rest ih =>
    intro h
    have hsplit : (['/', '/'] : List Char).isPrefixOf (c :: rest) = false ∧
        occursSub ['/', '/'] rest = false := by
      unfold occursSub at h
      simpa [Bool.or_eq_false_iff] using h
    cases rest with
    | nil => rfl
    | cons c₂ r₂ =>
      have hcc : ¬(c = '/' ∧ c₂ = '/') := by
        rintro ⟨hc, hc₂⟩
        subst hc
        subst hc₂
        simp [List.isPrefixOf] at hsplit
      show stripLCAux false (c :: c₂ :: r₂) = c :: c₂ :: r₂
      unfold stripLCAux
      dsimp only
      rw [if_neg hcc]
      exact congrArg (c :: ·) (ih hsplit.2)

/-- Pass 2 is the identity on texts with no `/*`, given enough fuel. -/
theorem sBCFuel_id :
    ∀ (s : List Char) (fuel : Nat), occursSub ['/', '*'] s = false →
      s.length ≤ fuel → sBCFuel fuel s = s := by
  intro s
  induction s with
  | nil =>
    intro fuel _ _
    cases fuel <;> rfl
  | cons c rest ih =>
    intro fuel h hlen
    have hsplit : (['/', '*'] : List Char).isPrefixOf (c :: rest) = false ∧
        occursSub ['/', '*'] rest = false := by
      unfold occursSub at h
      simpa [Bool.or_eq_false_iff] using h
    cases fuel with
    | zero => simp at hlen
    | succ f =>
      have hcc : ¬(c = '/' ∧ rest.headD ' ' = '*') := by
        rintro ⟨hc, hc₂⟩
        subst hc
        cases rest with
        | nil => simp [List.headD] at hc₂
        | cons c₂ r₂ =>
          simp only [List.headD_cons] at hc₂
          subst hc₂
          simp [List.isPrefixOf] at hsplit
      show sBCFuel (f + 1) (c :: rest) = c :: rest
      unfold sBCFuel
      rw [if_neg hcc]
      exact congrArg (c :: ·) (ih f hsplit.2 (by simpa using Nat.le_of_succ_le_succ hlen))

/-- Pass 3 is the identity on texts where the key-quoting pattern never
matches, given enough fuel. -/
theorem quoteKeysFuel_id :
    ∀ (s : List Char) (prev : Option Char) (fuel : Nat),
      hasKeyPatAux prev s = false → s.length ≤ fuel →
      quoteKeysFuel fuel prev s = s := by
  intro s
  induction s with
  | nil =>
    intro prev fuel _ _
    cases fuel <;> rfl
  | cons c rest ih =>
    intro prev fuel h hlen
    have hsplit : (keyTrigger prev && (tryKeyMatch (c :: rest)).isSome) = false ∧
        hasKeyPatAux (some c) rest = false := by
      unfold hasKeyPatAux at h
      simpa [Bool.or_eq_false_iff] using h
    cases fuel with
    | zero => simp at hlen
    | succ f =>
      show quoteKeysFuel (f + 1) prev (c :: rest) = c :: rest
      unfold quoteKeysFuel
      have hrest := ih (some c) f hsplit.2 (by simpa using Nat.le_of_succ_le_succ hlen)
      cases htr : keyTrigger prev with
      | false => simp [htr, hrest]
      | true =>
        have hnone : tryKeyMatch (c :: rest) = none := by
          cases htk : tryKeyMatch (c :: rest) with
          | none => rfl
          | some v =>
            have hb := hsplit.1
            rw [htr, Bool.true_and, htk] at hb
            simp at hb
        simp [htr, hnone, hrest]

/-- Pass 4 is the identity on texts where the trailing-comma pattern never
matches, given enough fuel. -/
theorem rtcFuel_id :
    ∀ (s : List Char) (fuel : Nat), hasTrailCommaAux s = false →
      s.length ≤ fuel → rtcFuel fuel s = s := by
  intro s
  induction s with
  | nil =>
    intro fuel _ _
    cases fuel <;> rfl
  | cons c rest ih =>
    intro fuel h hlen
    have hsplit : (decide (c = ',') &&
        (match rest.dropWhile pyWs with
         | b :: _ => decide (b = '}' ∨ b = ']')
         | [] => false)) = false ∧ hasTrailCommaAux rest = false := by
      unfold hasTrailCommaAux at h
      simpa [Bool.or_eq_false_iff] using h
    cases fuel with
    | zero => simp at hlen
    | succ f =>
      have hrest := ih f hsplit.2 (by simpa using Nat.le_of_succ_le_succ hlen)
      show rtcFuel (f + 1) (c :: rest) = c :: rest
      unfold rtcFuel
      by_cases hc : c = ','
      · subst hc
        have hmatch := hsplit.1
        rw [decide_eq_true rfl, Bool.true_and] at hmatch
        cases hdw : rest.dropWhile pyWs with
        | nil => simp [hdw, hrest]
        | cons b r₂ =>
          rw [hdw] at hmatch
          have hb : ¬(b = '}' ∨ b = ']') := by simpa using hmatch
          simp [hdw, hb, hrest]
      · simp [hc, hrest]

/-- C3 (amended): `js_to_json` is the identity on every text in which none
of its four textual patterns occurs anywhere — no `//` pair, no `/*` pair,
no brace/comma/newline followed by whitespace, a bare word and a colon,
and no comma-whitespace-closer — where "anywhere" includes positions
inside string literals, since the substitutions are blind to string
context. -/
theorem claim_C3 (s : List Char)
    (h1 : occursSub ['/', '/'] s = false)
    (h2 : occursSub ['/', '*'] s = false)
    (h3 : hasKeyPat s = false)
    (h4 : hasTrailCommaAux s = false) :
    js_to_json s = s := by
  unfold js_to_json
  rw [show stripLineComments s = s from stripLCAux_id s h1]
  rw [show stripBlockComments s = s from sBCFuel_id s s.length h2 le_rfl]
  rw [show quoteBareKeys s = s from quoteKeysFuel_id s none s.length h3 le_rfl]
  exact rtcFuel_id s s.length h4 le_rfl

/-- C3 (counterexample data): a valid JSON object whose single string
value contains a comma followed by a word and a colon. -/
def cexC3 : List Char := '{' :: "\"a\": \"x, y: z\"".toList ++ ['}']

/-- C3 is false as stated: `cexC3` has no comments (not even a `//` or
`/*` character pair), every key outside string literals is quoted, and the
trailing-comma pattern never occurs, yet normalization is not the
identity: the `, y:` inside the string value is rewritten to `, "y":`. -/
theorem claim_C3_cex :
    js_to_json cexC3 ≠ cexC3 ∧
    js_to_json cexC3 = '{' :: "\"a\": \"x, \"y\": z\"".toList ++ ['}'] ∧
    occursSub ['/', '/'] cexC3 = false ∧
    occursSub ['/', '*'] cexC3 = false ∧
    noBareKeysSpec cexC3 = true ∧
    hasTrailCommaAux cexC3 = false := by
  refine ⟨by decide, by decide, by decide, by decide, by decide, by decide⟩

/-- Witness for C3 on a pattern-free literal. -/
theorem claim_C3_witness :
    js_to_json ('{' :: "\"a\": 1".toList ++ ['}']) =
      '{' :: "\"a\": 1".toList ++ ['}'] :=
  claim_C3 _ (by decide) (by decide) (by decide) (by decide)

/-! ### Finding-kind lemmas: which check emits which `type` tag. -/

theorem vocabEntryIssues_types (sentence : Bool) (aws : List (List Char))
    (num sect : List Char) (entry : List (List Char)) (f : Finding)
    (hf : f ∈ vocabEntryIssues sentence aws num sect entry) :
    f.type = "vocab_leak".toList := by
  rw [vocabEntryIssues] at hf
  by_cases h1 : entry.length < 2
  · rw [if_pos h1] at hf
    cases hf
  · rw [if_neg h1] at hf
    by_cases h2 : pyStrip (List.filter (fun c => wordCh c || pyWs c) (lowerL (entry.headD []))) ∈ COMMON_WORDS
    · rw [if_pos h2] at hf
      cases hf
    · rw [if_neg h2] at hf
      simp only [List.mem_flatMap] at hf
      obtain ⟨aw, _, hfa⟩ := hf
      split_ifs at hfa <;> simp_all

theorem check_vocab_leaks_types (q : Question) (s : List Char) (f : Finding)
    (hf : f ∈ check_vocab_leaks q s) : f.type = "vocab_leak".toList := by
  unfold check_vocab_leaks at hf
  split_ifs at hf
  · cases hf
  · simp only [List.mem_flatMap] at hf
    obtain ⟨entry, _, hfe⟩ := hf
    exact vocabEntryIssues_types _ _ _ _ _ _ hfe

theorem check_hint_leaks_types (q : Question) (s : List Char) (f : Finding)
    (hf : f ∈ check_hint_leaks q s) : f.type = "hint_leak".toList := by
  rw [check_hint_leaks] at hf
  by_cases h1 : (q.answer.isEmpty || q.hint.isEmpty) = true
  · rw [if_pos h1] at hf
    cases hf
  · rw [if_neg h1] at hf
    by_cases h2 : is_sentence_answer q.answer = true
    · rw [if_pos h2] at hf
      cases hf
    · rw [if_neg h2] at hf
      simp only [List.mem_flatMap] at hf
      obtain ⟨p, _, hfp⟩ := hf
      obtain ⟨aw, _, hfa⟩ := hfp
      split_ifs at hfa <;> simp_all [mkHintFinding]

theorem demoteTranslation_type (f : Finding) :
    (demoteTranslation f).type = f.type := by
  unfold demoteTranslation
  split_ifs <;> rfl

theorem check_required_fields_types (q : Question) (s : List Char) (f : Finding)
    (hf : f ∈ check_required_fields q s) :
    f.type = "missing_field".toList ∨ f.type = "no_pedagogy".toList := by
  simp only [check_required_fields] at hf
  have base :
      ∀ g ∈ ([(q.text, "text".toList), (q.answer, "answer".toList),
              (q.translation, "translation".toList)].filterMap fun p =>
          if (pyStrip p.1).isEmpty then some (mkMissingField q.num s p.2) else none) ++
        (if q.vocab.isEmpty && q.hint.isEmpty then
          [⟨"no_pedagogy".toList, "LOW".toList, q.num, s,
            "No vocab AND no hints (student gets no help)".toList⟩]
         else []),
      (g : Finding).type = "missing_field".toList ∨ g.type = "no_pedagogy".toList := by
    intro g hg
    rw [List.mem_append] at hg
    rcases hg with hg | hg
    · simp only [List.mem_filterMap] at hg
      obtain ⟨p, _, hp⟩ := hg
      split_ifs at hp
      exact Or.inl (by cases hp; rfl)
    · split_ifs at hg
      · rw [List.mem_singleton] at hg
        exact Or.inr (by rw [hg])
      · cases hg
  by_cases ho : ((["並べかえ", "英作文", "空所補充"].map String.toList).any
      fun kw => occursSub kw (lowerL s)) = true
  · rw [if_pos ho] at hf
    simp only [List.mem_map] at hf
    obtain ⟨g, hg, hfg⟩ := hf
    rw [← hfg, demoteTranslation_type]
    exact base g hg
  · rw [if_neg ho] at hf
    exact base f hf

theorem check_hint_count_types (q : Question) (s : List Char) (f : Finding)
    (hf : f ∈ check_hint_count q s) : f.type = "hint_count".toList := by
  unfold check_hint_count at hf
  split_ifs at hf
  · rw [List.mem_singleton] at hf
    rw [hf]
  · cases hf

/-- No per-question check ever emits a `categoryMap_mismatch` finding. -/
theorem questionIssues_not_cat (q : Question) (t : List Char) (f : Finding)
    (hf : f ∈ questionIssues q t) : f.type ≠ "categoryMap_mismatch".toList := by
  unfold questionIssues at hf
  simp only [List.mem_append] at hf
  rcases hf with ((hv | hh) | hr) | hc
  · rw [check_vocab_leaks_types _ _ _ hv]
    decide
  · rw [check_hint_leaks_types _ _ _ hh]
    decide
  · rcases check_required_fields_types _ _ _ hr with h | h <;> (rw [h]; decide)
  · rw [check_hint_count_types _ _ _ hc]
    decide

theorem sections_not_cat (sections : List LSection) (f : Finding)
    (hf : f ∈ sections.flatMap sectionIssues) :
    f.type ≠ "categoryMap_mismatch".toList := by
  simp only [List.mem_flatMap] at hf
  obtain ⟨sec, _, hfs⟩ := hf
  unfold sectionIssues at hfs
  simp only [List.mem_flatMap] at hfs
  obtain ⟨q, _, hfq⟩ := hfs
  exact questionIssues_not_cat _ _ _ hfq

theorem sizeIssuesOf_not_cat (size : Nat) (f : Finding)
    (hf : f ∈ sizeIssuesOf size) : f.type ≠ "categoryMap_mismatch".toList := by
  unfold sizeIssuesOf at hf
  split_ifs at hf
  · rw [List.mem_singleton] at hf
    rw [hf]
    dsimp only [sizeFinding]
    decide
  · cases hf

/-- The `categoryMap_mismatch` findings of a findings list. -/
def mismatchFindings (l : List Finding) : List Finding :=
  l.filter (fun f => decide (f.type = "categoryMap_mismatch".toList))

/-- A successful `matchCatAt` starts with the categoryMap literal. -/
theorem matchCatAt_isPrefixOf (s g : List Char) (h : matchCatAt s = some g) :
    catLit.isPrefixOf s = true := by
  unfold matchCatAt at h
  cases hsl : stripLit catLit s with
  | none => rw [hsl] at h; cases h
  | some r => exact stripLit_isPrefixOf _ _ _ hsl

/-- A prefix of the left part of an appended literal is itself a prefix. -/
theorem isPrefixOf_append_left :
    ∀ (a b s : List Char), (a ++ b).isPrefixOf s = true → a.isPrefixOf s = true := by
  intro a
  induction a with
  | nil =>
    intro b s _
    cases s <;> rfl
  | cons x xs ih =>
    intro b s h
    cases s with
    | nil => simp [List.isPrefixOf] at h
    | cons y ys =>
      simp only [List.cons_append, List.isPrefixOf] at h ⊢
      rw [Bool.and_eq_true] at h ⊢
      exact ⟨h.1, ih b ys h.2⟩

/-- When the text `categoryMap` never occurs, the categoryMap regex finds
nothing. -/
theorem catSearch_none :
    ∀ s : List Char, occursSub "categoryMap".toList s = false → catSearch s = none := by
  intro s
  induction s with
  | nil => intro _; rfl
  | cons c rest ih =>
    intro h
    have hsplit : ("categoryMap".toList).isPrefixOf (c :: rest) = false ∧
        occursSub "categoryMap".toList rest = false := by
      unfold occursSub at h
      simpa [Bool.or_eq_false_iff] using h
    have hmc : matchCatAt (c :: rest) = none := by
      cases hm : matchCatAt (c :: rest) with
      | none => rfl
      | some g =>
        have hpre := matchCatAt_isPrefixOf _ _ hm
        have htrans : ("categoryMap".toList).isPrefixOf (c :: rest) = true := by
          have hsplitlit : catLit = "categoryMap".toList ++ [':'] := by decide
          rw [hsplitlit] at hpre
          exact isPrefixOf_append_left _ _ _ hpre
        rw [hsplit.1] at htrans
        cases htrans
    unfold catSearch
    rw [hmc]
    exact ih hsplit.2

/-- C10: for every document containing no categoryMap literal at all, the
per-file validation emits no `categoryMap_mismatch` finding — the check is
silently skipped rather than treating the absent mapping as referencing
the empty index set. -/
theorem claim_C10 (jparse : List Char → Except (List Char) GrammarData)
    (content : List Char) (size : Nat)
    (h : occursSub "categoryMap".toList content = false) :
    mismatchFindings (validate_file_core jparse content size) = [] := by
  have hcat : catSearch content = none := catSearch_none content h
  unfold mismatchFindings
  rw [List.filter_eq_nil_iff]
  intro f hf
  simp only [decide_eq_true_eq]
  intro heq
  unfold validate_file_core at hf
  cases hex : extract_grammar_data_text content with
  | none =>
    rw [hex] at hf
    rw [List.mem_append] at hf
    rcases hf with hf | hf
    · exact sizeIssuesOf_not_cat _ _ hf heq
    · rw [List.mem_singleton] at hf
      rw [hf] at heq
      cases heq
  | some raw =>
    rw [hex] at hf
    dsimp only at hf
    cases hok : jparse (js_to_json raw) with
    | error e =>
      rw [hok] at hf
      dsimp only at hf
      rw [List.mem_append] at hf
      rcases hf with hf | hf
      · exact sizeIssuesOf_not_cat _ _ hf heq
      · rw [List.mem_singleton] at hf
        rw [hf] at heq
        cases heq
    | ok data =>
      rw [hok] at hf
      dsimp only at hf
      split_ifs at hf
      · rw [List.mem_append] at hf
        rcases hf with hf | hf
        · exact sizeIssuesOf_not_cat _ _ hf heq
        · rw [List.mem_singleton] at hf
          rw [hf] at heq
          cases heq
      · simp only [categoryMapIssues, hcat, List.append_nil] at hf
        rw [List.mem_append] at hf
        rcases hf with hf | hf
        · exact sizeIssuesOf_not_cat _ _ hf heq
        · exact sections_not_cat _ _ hf heq

/-- Witness for C10 on a document without a categoryMap. -/
theorem claim_C10_witness :
    mismatchFindings
      (validate_file_core (fun _ => Except.ok ⟨[]⟩) "plain page".toList 3) = [] :=
  claim_C10 _ _ _ (by decide)

theorem mismatch_nil_of_all (l : List Finding)
    (h : ∀ f ∈ l, f.type ≠ "categoryMap_mismatch".toList) :
    mismatchFindings l = [] := by
  unfold mismatchFindings
  rw [List.filter_eq_nil_iff]
  intro f hf
  simpa using h f hf

/-- The code's set comparison `set(referenced) == set(range(n))` holds
exactly when membership in the referenced list coincides with being a
valid section index. -/
theorem refsEqualRange_iff (n : Nat) (refs : List Nat) :
    refsEqualRange n refs = true ↔ ∀ k, k ∈ refs ↔ k < n := by
  unfold refsEqualRange
  rw [Bool.and_eq_true, List.all_eq_true, List.all_eq_true]
  constructor
  · rintro ⟨h1, h2⟩ k
    constructor
    · intro hk
      simpa using h2 k hk
    · intro hk
      simpa using h1 k (List.mem_range.mpr hk)
  · intro h
    constructor
    · intro k hk
      simpa using (h k).mpr (List.mem_range.mp hk)
    · intro k hk
      simpa using (h k).mp hk

/-- C7: for every file whose parsed structure has N sections and whose
declared categoryMap matches, the validation emits zero
`categoryMap_mismatch` findings exactly when the integers referenced in
the mapping text are precisely the index set `\x7b0, ..., N-1\x7d`; and when
they differ, exactly one HIGH `categoryMap_mismatch` finding is emitted,
whose detail lists the sorted missing and extra indices. -/
theorem claim_C7 (jparse : List Char → Except (List Char) GrammarData)
    (content : List Char) (size : Nat) (raw : List Char) (data : GrammarData)
    (catText : List Char)
    (hex : extract_grammar_data_text content = some raw)
    (hok : jparse (js_to_json raw) = Except.ok data)
    (hne : data.sections ≠ [])
    (hcat : catSearch content = some catText) :
    (mismatchFindings (validate_file_core jparse content size) = [] ↔
      ∀ k, k ∈ digitRuns catText ↔ k < data.sections.length) ∧
    ((¬ ∀ k, k ∈ digitRuns catText ↔ k < data.sections.length) →
      mismatchFindings (validate_file_core jparse content size) =
        [catMismatchFinding data.sections.length (digitRuns catText)]) := by
  have hemp : data.sections.isEmpty = false := by
    cases h : data.sections with
    | nil => exact absurd h hne
    | cons a t => simp
  have hval : validate_file_core jparse content size =
      sizeIssuesOf size ++ categoryMapIssues content data.sections.length ++
        data.sections.flatMap sectionIssues := by
    unfold validate_file_core
    rw [hex]
    dsimp only
    rw [hok]
    dsimp only
    rw [if_neg (by simp [hemp])]
  have hcatIss : categoryMapIssues content data.sections.length =
      if refsEqualRange data.sections.length (digitRuns catText) then []
      else [catMismatchFinding data.sections.length (digitRuns catText)] := by
    unfold categoryMapIssues
    rw [hcat]
  have hmmsize : mismatchFindings (sizeIssuesOf size) = [] :=
    mismatch_nil_of_all _ (fun f hf => sizeIssuesOf_not_cat _ _ hf)
  have hmmsec : mismatchFindings (data.sections.flatMap sectionIssues) = [] :=
    mismatch_nil_of_all _ (fun f hf => sections_not_cat _ _ hf)
  have happ : mismatchFindings (validate_file_core jparse content size) =
      mismatchFindings (categoryMapIssues content data.sections.length) := by
    rw [hval]
    unfold mismatchFindings at hmmsize hmmsec ⊢
    rw [List.filter_append, List.filter_append, hmmsize, hmmsec,
      List.nil_append, List.append_nil]
  by_cases href : refsEqualRange data.sections.length (digitRuns catText) = true
  · have hzero : mismatchFindings (validate_file_core jparse content size) = [] := by
      rw [happ, hcatIss, if_pos href]
      rfl
    constructor
    · rw [hzero]
      simp only [true_iff]
      exact (refsEqualRange_iff _ _).mp href
    · intro hnot
      exact absurd ((refsEqualRange_iff _ _).mp href) hnot
  · have hone : mismatchFindings (validate_file_core jparse content size) =
        [catMismatchFinding data.sections.length (digitRuns catText)] := by
      rw [happ, hcatIss, if_neg href]
      unfold mismatchFindings
      rw [List.filter_singleton]
      have hd : decide ((catMismatchFinding data.sections.length (digitRuns catText)).type
          = "categoryMap_mismatch".toList) = true := by
        dsimp only [catMismatchFinding]
        rfl
      rw [hd, cond_true]
    constructor
    · rw [hone]
      constructor
      · intro habs
        cases habs
      · intro hforall
        exact absurd ((refsEqualRange_iff _ _).mpr hforall) href
    · intro _
      exact hone

/-- Witness for C7: a two-section document whose categoryMap references
index 2 but not index 1, yielding exactly the mismatch finding. -/
theorem claim_C7_witness :
    mismatchFindings
      (validate_file_core
        (fun _ => Except.ok ⟨[⟨"A".toList, []⟩, ⟨"B".toList, []⟩]⟩)
        ("categoryMap: ".toList ++ '{' :: "\"a\": 0, \"b\": 2".toList ++
          '}' :: "\nconst grammarData = ".toList ++ '{' :: "\n".toList ++ ['}'] ++
          ";".toList)
        5) =
      [catMismatchFinding 2 [0, 2]] := by
  refine (claim_C7 _ _ _ ('{' :: '\n' :: '}' :: []) ⟨[⟨"A".toList, []⟩, ⟨"B".toList, []⟩]⟩
      "\"a\": 0, \"b\": 2".toList (by decide) rfl (by decide) (by decide)).2 ?_
  intro hforall
  have h1 := (hforall 1).mpr (by decide)
  revert h1
  decide

end ERV
